import Mathlib

/-!
Shallow embedding of `octodns/source/tinydns.py` (TinyDnsBaseSource):
the tinydns zone-data parsing and record-synthesis pipeline.

Conventions of the embedding:
* Python strings are Lean `String`s; colon-separated field lists are
  `List String`.
* Fallible Python operations (list indexing, `int(...)`, attribute lookup,
  codec errors, `raise NotImplementedError()`) are modelled in
  `Except PyErr`.
* Python `dict`s (all used with insertion-order iteration) are modelled as
  association lists that preserve insertion order.
-/

namespace TinyDns

/-- Python exceptions that the embedded code can raise. -/
inductive PyErr where
  | indexError
  | valueError
  | notImplementedError
  | attributeError
  | unicodeError
  deriving DecidableEq, Repr

/-- Decidable equality of embedded results, so that concrete runs of the
embedded code can be checked by `decide`. -/
instance exceptDecEq {ε α : Type} [DecidableEq ε] [DecidableEq α] : DecidableEq (Except ε α) :=
  fun x y =>
    match x, y with
    | .ok a, .ok b =>
      match decEq a b with
      | isTrue h => isTrue (by rw [h])
      | isFalse h => isFalse (by intro hh; cases hh; exact h rfl)
    | .error e, .error f =>
      match decEq e f with
      | isTrue h => isTrue (by rw [h])
      | isFalse h => isFalse (by intro hh; cases hh; exact h rfl)
    | .ok _, .error _ => isFalse (by intro hh; cases hh)
    | .error _, .ok _ => isFalse (by intro hh; cases hh)

/-- Python list indexing `l[i]` for `i ≥ 0`: raises `IndexError` when out of
range. -/
def pyIdx {α : Type} (l : List α) (i : Nat) : Except PyErr α :=
  match l.get? i with
  | some a => .ok a
  | none => .error .indexError

/-- A Python list comprehension `[g x for x in xs]` where `g` can raise:
evaluates left to right, propagating the first exception. -/
def exMap {α β : Type} (g : α → Except PyErr β) : List α → Except PyErr (List β)
  | [] => .ok []
  | a :: rest => do
    let b ← g a
    let bs ← exMap g rest
    .ok (b :: bs)

/-- Digits to a natural number, most significant first. -/
def digitsToNat (cs : List Char) : Nat :=
  cs.foldl (fun a c => a * 10 + (c.toNat - 48)) 0

/-- Python `int(s)` on an already-stripped string: optional sign followed by
one or more decimal digits; anything else raises `ValueError` (returns `none`
here). Digit-grouping underscores are not modelled. -/
def pyInt (s : String) : Option Int :=
  match s.data with
  | [] => none
  | '-' :: rest =>
    if rest ≠ [] ∧ rest.all (·.isDigit) then some (-(digitsToNat rest : Int)) else none
  | '+' :: rest =>
    if rest ≠ [] ∧ rest.all (·.isDigit) then some ((digitsToNat rest : Int)) else none
  | cs =>
    if cs.all (·.isDigit) then some ((digitsToNat cs : Int)) else none

/-- The TTL scan that every handler performs:

    ttl = self.default_ttl
    for line in lines:
        try:
            ttl = int(lines[0][idx])
            break
        except IndexError:
            pass

The loop body reads `lines[0]`, not `line`, so every iteration is identical:
when `lines` is nonempty it makes a single attempt on `lines[0][idx]`.  A
missing field is an `IndexError` (caught: keep the default); a present but
unparseable field makes `int` raise `ValueError`, which is not caught. -/
def scanTtl (defaultTtl : Int) (idx : Nat) (lines : List (List String)) : Except PyErr Int :=
  match lines with
  | [] => .ok defaultTtl
  | l0 :: _ =>
    match l0.get? idx with
    | none => .ok defaultTtl
    | some s =>
      match pyInt s with
      | some n => .ok n
      | none => .error .valueError

/-- A value carried by a synthesis event: either a scalar string (A, AAAA,
NS, TXT, CNAME) or an MX pair.  The MX preference is `line[3] or 0`: the
field string when present and nonempty, otherwise the integer default `0`
(modelled as `none`). -/
inductive RValue where
  | s (v : String)
  | mx (preference : Option String) (exchange : String)
  deriving DecidableEq, Repr

/-- A synthesis event `(record type, owner name, values)` yielded by a
symbol handler. -/
structure Event where
  rtype : String
  name : String
  values : List RValue
  deriving DecidableEq, Repr

/-- Values of the last event in a handler's output (`[]` when there is
none). -/
def lastValues (evs : List Event) : List RValue :=
  match evs.getLast? with
  | some ev => ev.values
  | none => []

/-- Record type of the last event in a handler's output. -/
def lastType (evs : List Event) : Option String :=
  evs.getLast?.map Event.rtype

/-- Owner name of the last event in a handler's output. -/
def lastName (evs : List Event) : Option String :=
  evs.getLast?.map Event.name

/-- The exchange component of an MX value. -/
def mxExchange : RValue → Option String
  | .mx _ e => some e
  | .s _ => none

/-- Python `s[:-1]`: drop the last character. -/
def pyDropLast (s : String) : String :=
  ⟨s.data.dropLast⟩

/-- Modelled from the spec: the external `zone.hostname_from_fqdn` helper
("a function to strip the zone suffix from a fully-qualified name yielding a
zone-relative name", §6); the `Zone` class itself is not part of this
source file. -/
def hostname_from_fqdn (zoneName fqdn : String) : String :=
  if fqdn = zoneName then ""
  else if List.isSuffixOf ("." ++ zoneName).data fqdn.data then
    ⟨fqdn.data.take (fqdn.data.length - zoneName.data.length - 1)⟩
  else if fqdn = pyDropLast zoneName then ""
  else if List.isSuffixOf ("." ++ pyDropLast zoneName).data fqdn.data then
    ⟨fqdn.data.take (fqdn.data.length - zoneName.data.length)⟩
  else fqdn

/-- The signature shared by all `_records_for_*` handlers:
default TTL, zone name, owner name, line group, `in_addr` flag. -/
abbrev Handler := Int → String → String → List (List String) → Bool → Except PyErr (List Event)

/-- `_records_for_plus` (`+fqdn:ip:ttl:timestamp:lo` → A):
collects `line[1]` of every line, dropping the `0.0.0.0` placeholder;
yields nothing when no address survives; otherwise performs the (dead)
TTL scan on field 2 and yields one A event. -/
def records_for_plus : Handler := fun defaultTtl _zn name lines inAddr =>
  if inAddr then .ok []
  else do
    let raw ← exMap (fun l => pyIdx l 1) lines
    let ips := raw.filter (fun ip => ip != "0.0.0.0")
    if ips.isEmpty then .ok []
    else do
      let _ttl ← scanTtl defaultTtl 2 lines
      .ok [⟨"A", name, ips.map RValue.s⟩]

/-- `_records_for_caret` (`^` → PTR): returns no events unless `in_addr`
is set, in which case it raises `NotImplementedError`. -/
def records_for_caret : Handler := fun _defaultTtl _zn _name _lines inAddr =>
  if ¬inAddr then .ok []
  else .error .notImplementedError

/-- `_records_for_equal` (`=` → A, plus PTR in reverse zones):
yields from `+`, then from `^`. -/
def records_for_equal : Handler := fun defaultTtl zn name lines inAddr => do
  let a ← records_for_plus defaultTtl zn name lines inAddr
  let b ← records_for_caret defaultTtl zn name lines inAddr
  .ok (a ++ b)

/-- Models `textwrap.wrap(s, 4)` for inputs without whitespace or hyphens
(the only way the source uses it, on de-coloned IPv6 hex strings): chunks
of four characters. -/
def chunksOf4 : List Char → List (List Char)
  | [] => []
  | [a] => [[a]]
  | [a, b] => [[a, b]]
  | [a, b, c] => [[a, b, c]]
  | a :: b :: c :: e :: rest => [a, b, c, e] :: chunksOf4 rest

/-- `u":".join(textwrap.wrap(s, 4))`: re-insert a colon after every 4th
character of a de-coloned IPv6 address. -/
def ipv6Format (s : String) : String :=
  String.intercalate ":" ((chunksOf4 s.data).map (fun cs => (⟨cs⟩ : String)))

/-- `_records_for_three` (`3fqdn:ip:ttl:timestamp:lo` → AAAA):
reformats each line's field 1 with `ipv6Format`, performs the (dead) TTL
scan on field 2, and yields one AAAA event. -/
def records_for_three : Handler := fun defaultTtl _zn name lines inAddr =>
  if inAddr then .ok []
  else do
    let ips ← exMap (fun l => do
      let f ← pyIdx l 1
      .ok (ipv6Format f)) lines
    let _ttl ← scanTtl defaultTtl 2 lines
    .ok [⟨"AAAA", name, ips.map RValue.s⟩]

/-- `_records_for_six` (`6` → AAAA, plus PTR in reverse zones):
yields from `3`, then from `^`. -/
def records_for_six : Handler := fun defaultTtl zn name lines inAddr => do
  let a ← records_for_three defaultTtl zn name lines inAddr
  let b ← records_for_caret defaultTtl zn name lines inAddr
  .ok (a ++ b)

/-- The hostname expansion shared verbatim by `_records_for_dot` and
`_records_for_at`:

    if '.' not in h: h = f'{h}.ns.{zone.name}'
    elif h[-1] != '.': h = f'{h}.'

A field with no dot becomes `<field>.ns.<zone-fqdn>`; one with a dot but no
trailing dot gets a single trailing dot; one already ending in a dot is
unchanged.  (`h[-1]` is safe: a string containing `'.'` is nonempty.) -/
def hostExpand (zoneName h : String) : String :=
  if ¬h.data.contains '.' then h ++ ".ns." ++ zoneName
  else if h.data.getLast? ≠ some '.' then h ++ "."
  else h

/-- The per-line loop of `_records_for_dot`: for each line, expand `line[2]`,
and when `line[1]` is a nonempty address additionally yield a synthesized A
event for the nameserver's zone-relative name.  Returns the interleaved A
events and the accumulated NS values, in file order. -/
def dotLoop (zoneName : String) : List (List String) → Except PyErr (List Event × List RValue)
  | [] => .ok ([], [])
  | l :: rest => do
    let ns0 ← pyIdx l 2
    let ns := hostExpand zoneName ns0
    let ip ← pyIdx l 1
    let (evs, vals) ← dotLoop zoneName rest
    let here : List Event :=
      if ip ≠ "" then [⟨"A", hostname_from_fqdn zoneName ns, [.s ip]⟩] else []
    .ok (here ++ evs, .s ns :: vals)

/-- `_records_for_dot` (`.fqdn:ip:x:ttl:timestamp:lo` → NS, plus synthesized
A): the (dead) TTL scan is on field 3; the NS event carrying all values is
yielded last. -/
def records_for_dot : Handler := fun defaultTtl zn name lines inAddr =>
  if inAddr then .ok []
  else do
    let _ttl ← scanTtl defaultTtl 3 lines
    let (evs, vals) ← dotLoop zn lines
    .ok (evs ++ [⟨"NS", name, vals⟩])

/-- `_records_for_amp = _records_for_dot` (`&` → NS). -/
def records_for_amp : Handler := records_for_dot

/-- The per-line loop of `_records_for_at`: for each line, expand `line[2]`,
read the preference `line[3] or 0` (defaulting on a missing or empty field),
and when `line[1]` is a nonempty address additionally yield a synthesized A
event for the exchange's zone-relative name. -/
def atLoop (zoneName : String) : List (List String) → Except PyErr (List Event × List RValue)
  | [] => .ok ([], [])
  | l :: rest => do
    let mx0 ← pyIdx l 2
    let mx := hostExpand zoneName mx0
    let dist : Option String :=
      match l.get? 3 with
      | some f => if f = "" then none else some f
      | none => none
    let ip ← pyIdx l 1
    let (evs, vals) ← atLoop zoneName rest
    let here : List Event :=
      if ip ≠ "" then [⟨"A", hostname_from_fqdn zoneName mx, [.s ip]⟩] else []
    .ok (here ++ evs, .mx dist mx :: vals)

/-- `_records_for_at` (`@fqdn:ip:x:dist:ttl:timestamp:lo` → MX, plus
synthesized A): the (dead) TTL scan is on field 4; the MX event carrying all
values is yielded last. -/
def records_for_at : Handler := fun defaultTtl zn name lines inAddr =>
  if inAddr then .ok []
  else do
    let _ttl ← scanTtl defaultTtl 4 lines
    let (evs, vals) ← atLoop zn lines
    .ok (evs ++ [⟨"MX", name, vals⟩])

/-- `_records_for_C` (`Cfqdn:p:ttl:timestamp:lo` → CNAME): only
`lines[0][1]` is used; a trailing dot is appended when absent (`value[-1]`
raises `IndexError` on an empty field); the (dead) TTL scan is on field 2. -/
def records_for_C : Handler := fun defaultTtl _zn name lines inAddr =>
  if inAddr then .ok []
  else do
    let l0 ← pyIdx lines 0
    let v0 ← pyIdx l0 1
    let value ←
      match v0.data.getLast? with
      | none => (.error .indexError : Except PyErr String)
      | some c => .ok (if c ≠ '.' then v0 ++ "." else v0)
    let _ttl ← scanTtl defaultTtl 2 lines
    .ok [⟨"CNAME", name, [.s value]⟩]

/-- `s.encode('latin1')`: raises `UnicodeEncodeError` when any character is
above U+00FF; otherwise the byte sequence is the code points themselves. -/
def latin1Ok (cs : List Char) : Except PyErr Unit :=
  if cs.all (fun c => c.toNat ≤ 255) then .ok () else .error .unicodeError

/-- Hex digit value. -/
def hexVal (c : Char) : Option Nat :=
  if '0' ≤ c ∧ c ≤ '9' then some (c.toNat - 48)
  else if 'a' ≤ c ∧ c ≤ 'f' then some (c.toNat - 87)
  else if 'A' ≤ c ∧ c ≤ 'F' then some (c.toNat - 55)
  else none

/-- Octal digit value. -/
def octVal (c : Char) : Option Nat :=
  if '0' ≤ c ∧ c ≤ '7' then some (c.toNat - 48) else none

/-- Models `bytes.decode('unicode-escape')`: single-character escapes,
octal escapes of one to three digits, `\xhh`, `\uhhhh`, `\Uhhhhhhhh`, a
backslash-newline line continuation; an unrecognized escape keeps the
backslash and the character; a trailing lone backslash and a malformed
`\x`/`\u`/`\U`/`\N` escape raise `ValueError`. -/
def unicodeUnescapeF : Nat → List Char → Except PyErr (List Char)
  | _, [] => .ok []
  | 0, _ :: _ => .error .valueError
  | fuel + 1, c :: rest =>
    let unicodeUnescape := unicodeUnescapeF fuel
    if c = '\\' then
      match rest with
      | [] => .error .valueError
      | e :: r1 =>
        if e = '\n' then unicodeUnescape r1
        else if e = '\\' then do
          let u ← unicodeUnescape r1
          .ok ('\\' :: u)
        else if e = '\'' then do
          let u ← unicodeUnescape r1
          .ok ('\'' :: u)
        else if e = '\"' then do
          let u ← unicodeUnescape r1
          .ok ('\"' :: u)
        else if e = 'a' then do
          let u ← unicodeUnescape r1
          .ok ('\x07' :: u)
        else if e = 'b' then do
          let u ← unicodeUnescape r1
          .ok ('\x08' :: u)
        else if e = 'f' then do
          let u ← unicodeUnescape r1
          .ok ('\x0c' :: u)
        else if e = 'n' then do
          let u ← unicodeUnescape r1
          .ok ('\n' :: u)
        else if e = 'r' then do
          let u ← unicodeUnescape r1
          .ok ('\r' :: u)
        else if e = 't' then do
          let u ← unicodeUnescape r1
          .ok ('\t' :: u)
        else if e = 'v' then do
          let u ← unicodeUnescape r1
          .ok ('\x0b' :: u)
        else
          match octVal e with
          | some d1 =>
            match r1 with
            | d2c :: r2 =>
              match octVal d2c with
              | some d2 =>
                match r2 with
                | d3c :: r3 =>
                  match octVal d3c with
                  | some d3 => do
                    let u ← unicodeUnescape r3
                    .ok (Char.ofNat (d1 * 64 + d2 * 8 + d3) :: u)
                  | none => do
                    let u ← unicodeUnescape r2
                    .ok (Char.ofNat (d1 * 8 + d2) :: u)
                | [] => do
                  let u ← unicodeUnescape r2
                  .ok (Char.ofNat (d1 * 8 + d2) :: u)
              | none => do
                let u ← unicodeUnescape r1
                .ok (Char.ofNat d1 :: u)
            | [] => do
              let u ← unicodeUnescape r1
              .ok (Char.ofNat d1 :: u)
          | none =>
            if e = 'x' then
              match r1 with
              | h1 :: h2 :: r2 =>
                match hexVal h1, hexVal h2 with
                | some a, some b => do
                  let u ← unicodeUnescape r2
                  .ok (Char.ofNat (a * 16 + b) :: u)
                | _, _ => .error .valueError
              | _ => .error .valueError
            else if e = 'u' then
              match r1 with
              | h1 :: h2 :: h3 :: h4 :: r2 =>
                match hexVal h1, hexVal h2, hexVal h3, hexVal h4 with
                | some a, some b, some c3, some d => do
                  let u ← unicodeUnescape r2
                  .ok (Char.ofNat (((a * 16 + b) * 16 + c3) * 16 + d) :: u)
                | _, _, _, _ => .error .valueError
              | _ => .error .valueError
            else if e = 'U' ∨ e = 'N' then .error .valueError
            else do
              let u ← unicodeUnescape r1
              .ok ('\\' :: e :: u)
    else do
      let u ← unicodeUnescape rest
      .ok (c :: u)

/-- `unicodeUnescapeF` with enough fuel: every step consumes at least one
character and one unit of fuel, so fuel equal to the input length never runs
out (the fuel-exhausted branch is unreachable). -/
def unicodeUnescape (cs : List Char) : Except PyErr (List Char) :=
  unicodeUnescapeF cs.length cs

/-- `.replace(";", "\\;")` of the decoded TXT value: every semicolon
becomes a backslash-semicolon pair. -/
def semiReplace : List Char → List Char
  | [] => []
  | c :: rest => (if c = ';' then ['\\', ';'] else [c]) ++ semiReplace rest

/-- The full per-value TXT transformation
`v.encode('latin1').decode('unicode-escape').replace(";", "\\;")`. -/
def quoteDecodeVal (v : String) : Except PyErr String := do
  let _ ← latin1Ok v.data
  let u ← unicodeUnescape v.data
  .ok ⟨semiReplace u⟩

/-- `_records_for_quote` (`'fqdn:s:ttl:timestamp:lo` → TXT): decodes each
line's field 1, performs the (dead) TTL scan on field 2, and yields one TXT
event. -/
def records_for_quote : Handler := fun defaultTtl _zn name lines inAddr =>
  if inAddr then .ok []
  else do
    let values ← exMap (fun l => do
      let f ← pyIdx l 1
      quoteDecodeVal f) lines
    let _ttl ← scanTtl defaultTtl 2 lines
    .ok [⟨"TXT", name, values.map RValue.s⟩]

/-- `SYMBOL_MAP`: symbol character to handler; `None` for symbols the source
does not support (`S`, `:`, ...). -/
def dispatch (sym : Char) : Option Handler :=
  match sym with
  | '=' => some records_for_equal
  | '^' => some records_for_caret
  | '.' => some records_for_dot
  | 'C' => some records_for_C
  | '+' => some records_for_plus
  | '@' => some records_for_at
  | '&' => some records_for_amp
  | '\'' => some records_for_quote
  | '3' => some records_for_three
  | '6' => some records_for_six
  | _ => none

/-- One tokenized line: the colon-separated, stripped fields (field 0 is
still the fully-qualified owner name). -/
abbrev Line := List String

/-- `data` in `_process_lines`: symbol → owner name → line group, insertion
ordered. -/
abbrev SymGroups := List (Char × List (String × List Line))

/-- `types` in `_process_symbols`: record type → owner name → accumulated
values, insertion ordered. -/
abbrev TypeGroups := List (String × List (String × List RValue))

/-- Append values to the bucket of `key`, creating it at the end when
absent (`defaultdict(list)` access followed by `extend`/`append`). -/
def bucketApp {α β : Type} [DecidableEq α] (key : α) (vs : List β) :
    List (α × List β) → List (α × List β)
  | [] => [(key, vs)]
  | (k, bs) :: rest =>
    if k = key then (k, bs ++ vs) :: rest
    else (k, bs) :: bucketApp key vs rest

/-- `data[symbol][name].append(line)` on the nested insertion-ordered map. -/
def groupAppend (data : SymGroups) (sym : Char) (name : String) (fields : Line) : SymGroups :=
  match data with
  | [] => [(sym, [(name, [fields])])]
  | (s, names) :: rest =>
    if s = sym then (s, bucketApp name [fields] names) :: rest
    else (s, names) :: groupAppend rest sym name fields

/-- `types[_type][name].extend(values)` on the nested insertion-ordered
map. -/
def typesExtend (types : TypeGroups) (rtype name : String) (vs : List RValue) : TypeGroups :=
  match types with
  | [] => [(rtype, [(name, vs)])]
  | (t, names) :: rest =>
    if t = rtype then (t, bucketApp name vs names) :: rest
    else (t, names) :: typesExtend rest rtype name vs

/-- Python whitespace for `str.strip()` (ASCII subset). -/
def isPyWs (c : Char) : Bool :=
  c = ' ' ∨ c = '\t' ∨ c = '\n' ∨ c = '\r' ∨ c = '\x0b' ∨ c = '\x0c'

/-- `s.strip()`: drop leading and trailing whitespace. -/
def pyStrip (s : String) : String :=
  ⟨((s.data.dropWhile isPyWs).reverse.dropWhile isPyWs).reverse⟩

/-- Python `s.split(sep)` for a single-character separator: fields between
separators, empty fields preserved. -/
def splitOnChar (sep : Char) : List Char → List (List Char)
  | [] => [[]]
  | c :: rest =>
    let r := splitOnChar sep rest
    if c = sep then [] :: r
    else
      match r with
      | [] => [[c]]
      | h :: t => (c :: h) :: t

/-- `line.split('#', 1)[0]` followed by `[p.strip() for p in line.split(':')]`:
drop the trailing comment, split on colons, strip each field. -/
def tokenizeFields (afterSym : List Char) : List String :=
  (splitOnChar ':' (afterSym.takeWhile (· != '#'))).map (fun cs => pyStrip ⟨cs⟩)

/-- One character of the interpolated-zone-name regex: a literal `.` in the
zone name was not escaped, so it is the regex wildcard, matching any
character except a newline; every other zone-name character matches itself
(faithful for zone names made of letters, digits, hyphens and dots). -/
def reDotChar (p c : Char) : Bool :=
  if p = '.' then c ≠ '\n' else p = c

/-- Match the interpolated zone-name portion of the pattern against a
character list of the same length. -/
def dotMatches : List Char → List Char → Bool
  | [], [] => true
  | p :: ps, c :: cs => reDotChar p c && dotMatches ps cs
  | _, _ => false

/-- Match `zoneNoDot` (with its unescaped-dot wildcards) followed by the
optional trailing `\.?` and the anchor `$` against `t`. -/
def coreOk (z t : List Char) : Bool :=
  dotMatches z t || (decide (t.getLast? = some '.') && dotMatches z t.dropLast)

/-- Acceptance of `re.match(fr'((?P<name>.+)\.)?{zone.name[:-1]}\.?$', s)`
in `_process_lines`: either the whole string is the zone part, or a
nonempty newline-free prefix is followed by a literal `.` and the zone
part.  (Fields were already stripped, so the `$`-before-final-newline case
cannot arise.) -/
def nameReAccepts (zoneNoDot s : String) : Bool :=
  coreOk zoneNoDot.data s.data ||
  (List.range s.data.length).any (fun i =>
    decide (1 ≤ i) && (s.data.take i).all (· ≠ '\n') &&
    decide (s.data.get? i = some '.') && coreOk zoneNoDot.data (s.data.drop (i + 1)))

/-- `_process_lines`: tokenize each raw line, keep it only when field 0
matches the zone pattern, and group the kept lines by symbol and
zone-relative owner name.  `line[0]` on an empty raw line raises
`IndexError`. -/
def process_lines (zoneName : String) : List String → SymGroups → Except PyErr SymGroups
  | [], data => .ok data
  | raw :: rest, data =>
    match raw.data with
    | [] => .error .indexError
    | sym :: tail =>
      match tokenizeFields tail with
      | [] => .error .indexError
      | name :: fs =>
        if nameReAccepts (pyDropLast zoneName) name then
          process_lines zoneName rest
            (groupAppend data sym (hostname_from_fqdn zoneName name) (name :: fs))
        else
          process_lines zoneName rest data

/-- Apply a handler's events to `types` in order. -/
def applyEvents (types : TypeGroups) : List Event → TypeGroups
  | [] => types
  | ev :: rest => applyEvents (typesExtend types ev.rtype ev.name ev.values) rest

/-- The inner loop of `_process_symbols` over one symbol's owner-name
groups; handlers are invoked with `in_addr` left at its default `False`. -/
def runNames (defaultTtl : Int) (zoneName : String) (h : Handler) :
    List (String × List Line) → TypeGroups → Except PyErr TypeGroups
  | [], types => .ok types
  | (name, lns) :: rest, types => do
    let evs ← h defaultTtl zoneName name lns false
    runNames defaultTtl zoneName h rest (applyEvents types evs)

/-- `_process_symbols`: dispatch each symbol group; unknown symbols are
skipped with a diagnostic.  The companion `ttls` table is a
`defaultdict(lambda: defaultdict(lambda: self.default_ttl))` that is never
written to, so it stays the constant default and is not represented. -/
def process_symbols (defaultTtl : Int) (zoneName : String) :
    SymGroups → TypeGroups → Except PyErr TypeGroups
  | [], types => .ok types
  | (sym, names) :: rest, types =>
    match dispatch sym with
    | none => process_symbols defaultTtl zoneName rest types
    | some h => do
      let types' ← runNames defaultTtl zoneName h names types
      process_symbols defaultTtl zoneName rest types'

/-- The `value`/`values` payload of a materialized record. -/
inductive RecData where
  | single (v : RValue)
  | multi (vs : List RValue)
  deriving DecidableEq, Repr

/-- A materialized record descriptor: exactly the data `_populate_normal`
hands to `Record.new` (construction and insertion themselves belong to the
external zone store). -/
structure MatRecord where
  rtype : String
  name : String
  ttl : Int
  data : RecData
  deriving DecidableEq, Repr

/-- The per-name body of the materialization loop: `values` with more than
one element becomes `data['values']`, otherwise `data['value'] = values[0]`.
The TTL is `ttls[_type][name]`, and since `ttls` is never written it is
always the configured default. -/
def materializeName (defaultTtl : Int) (rtype name : String) (vs : List RValue) :
    Except PyErr MatRecord :=
  if vs.length > 1 then .ok ⟨rtype, name, defaultTtl, .multi vs⟩
  else do
    let v ← pyIdx vs 0
    .ok ⟨rtype, name, defaultTtl, .single v⟩

/-- The materialization loop of `_populate_normal` over `types`. -/
def materialize (defaultTtl : Int) : TypeGroups → Except PyErr (List MatRecord)
  | [] => .ok []
  | (t, names) :: rest => do
    let here ← exMap (fun p => materializeName defaultTtl t p.1 p.2) names
    let more ← materialize defaultTtl rest
    .ok (here ++ more)

/-- `_populate_normal`: group lines, dispatch symbols, materialize. -/
def populate_normal (zoneName : String) (defaultTtl : Int) (rawLines : List String) :
    Except PyErr (List MatRecord) := do
  let symbols ← process_lines zoneName rawLines []
  let types ← process_symbols defaultTtl zoneName symbols []
  materialize defaultTtl types

/-- `_process_symbols` composed with the materialization loop: the path a
symbol group takes from handler dispatch to finished records. -/
def populate_from_symbols (defaultTtl : Int) (zoneName : String) (symbols : SymGroups) :
    Except PyErr (List MatRecord) := do
  let types ← process_symbols defaultTtl zoneName symbols []
  materialize defaultTtl types

/-- A PTR record descriptor built by the reverse-zone path.  The `ttl` field
is `line[2]` when the line has one (a raw string, passed through unparsed)
and `none` when the configured default applies. -/
structure PTRRec where
  name : String
  value : String
  ttl : Option String
  deriving DecidableEq, Repr

/-- `_populate_in_addr_arpa`: for every line whose symbol is `=`, `^` or
`&`, the body evaluates `self.split_re.split(line)`.  `split_re` is not an
attribute of `TinyDnsBaseSource` or `TinyDnsFileSource`, and — modelled from
the spec, which gives the external base class no such member (§6 lists only
the default-TTL configuration surface) — not of `BaseSource` either, so the
lookup raises `AttributeError` on the first such line.  Lines with other
symbols are skipped; `line[0]` on an empty line raises `IndexError`. -/
def populate_in_addr_arpa (zoneName : String) (defaultTtl : Int) :
    List String → Except PyErr (List PTRRec)
  | [] => .ok []
  | raw :: rest =>
    match raw.data with
    | [] => .error .indexError
    | sym :: _ =>
      if sym = '=' ∨ sym = '^' ∨ sym = '&' then .error .attributeError
      else populate_in_addr_arpa zoneName defaultTtl rest

/-- One dotted-quad octet as `ipaddress` accepts it: decimal digits, no
superfluous leading zero, at most 255. -/
def parseOctet (s : String) : Option Nat :=
  let cs := s.data
  if cs ≠ [] ∧ cs.all (·.isDigit) ∧ (cs.head? = some '0' → cs.length = 1) then
    let n := digitsToNat cs
    if n ≤ 255 then some n else none
  else none

/-- Models `ipaddress.ip_address(s).reverse_pointer` for IPv4 literals:
`d.c.b.a.in-addr.arpa` for address `a.b.c.d`; `none` when `s` is not a
valid dotted quad (`ip_address` raises `ValueError`). -/
def reversePointer (s : String) : Option String :=
  match (splitOnChar '.' s.data).map (fun cs => parseOctet (⟨cs⟩ : String)) with
  | [some a, some b, some c, some d] =>
    some (toString d ++ "." ++ toString c ++ "." ++ toString b ++ "." ++ toString a
      ++ ".in-addr.arpa")
  | _ => none

/-- Greedy group extraction for
`re.match(fr'(?P<name>.+)\.{zone.name[:-1]}\.?$', s)` in
`_populate_in_addr_arpa`: the longest nonempty newline-free prefix followed
by a literal `.` and the zone part; `none` when nothing matches. -/
def reNameExtract (zoneNoDot s : String) : Option String :=
  ((List.range s.data.length).reverse.filterMap (fun i =>
    if 1 ≤ i ∧ (s.data.take i).all (· ≠ '\n') = true ∧ s.data.get? i = some '.'
        ∧ coreOk zoneNoDot.data (s.data.drop (i + 1)) = true
    then some ((⟨s.data.take i⟩ : String)) else none)).head?

/-- Modelled from the spec: §4.6, the Reverse-Zone Path as it is specified
to behave — since the `self.split_re` slip makes the code itself
unreachable past tokenization, this follows the spec's words: tokenize as
in §4.1 (split on `:`), for a field 0 already in `in-addr.arpa` form match
it directly with the PTR target in field 1, otherwise compute the
reverse-pointer form of the IPv4 address in field 1 with the PTR target in
field 0; on a suffix match take the zone-relative owner name, the TTL from
field 2 when present, ensure the target's trailing dot, and skip duplicate
owner names (the duplicate-record signal is caught and logged). -/
def populate_in_addr_arpa_spec (zoneName : String) (acc : List PTRRec) :
    List String → Except PyErr (List PTRRec)
  | [] => .ok acc
  | raw :: rest =>
    match raw.data with
    | [] => .error .indexError
    | sym :: tail =>
      if sym = '=' ∨ sym = '^' ∨ sym = '&' then do
        match tokenizeFields tail with
        | [] => .error .indexError
        | f0 :: fs =>
          let step : Except PyErr (Option String × String) :=
            if List.isSuffixOf ("in-addr.arpa").data f0.data then do
              let v ← pyIdx (f0 :: fs) 1
              .ok (reNameExtract (pyDropLast zoneName) f0, v)
            else do
              let addr ← pyIdx (f0 :: fs) 1
              match reversePointer addr with
              | none => .error .valueError
              | some rp => .ok (reNameExtract (pyDropLast zoneName) rp, f0)
          do
          let (m, value) ← step
          match m with
          | none => populate_in_addr_arpa_spec zoneName acc rest
          | some nm =>
            let ttl : Option String := (f0 :: fs).get? 2
            let value := if value.data.getLast? = some '.' then value else value ++ "."
            if (acc.map PTRRec.name).contains nm then
              populate_in_addr_arpa_spec zoneName acc rest
            else
              populate_in_addr_arpa_spec zoneName (acc ++ [⟨nm, value, ttl⟩]) rest
      else populate_in_addr_arpa_spec zoneName acc rest

/-- Scan for a semicolon that is not immediately preceded by a backslash,
carrying the previous character. -/
def hasBareSemiAux (prev : Char) : List Char → Bool
  | [] => false
  | c :: rest => (decide (c = ';') && decide (prev ≠ '\\')) || hasBareSemiAux c rest

/-- Whether a character list contains a bare semicolon: one at the start,
or one whose preceding character is not a backslash. -/
def hasBareSemi (cs : List Char) : Bool :=
  hasBareSemiAux ' ' cs

/-- Replace the character at position `k` (identity when out of range). -/
def replaceAt (cs : List Char) (k : Nat) (c : Char) : List Char :=
  cs.set k c

/-- Characters a DNS zone name is made of; for these the interpolated
regex's only metacharacter effect is the `.` wildcard. -/
def zoneSafeChar (c : Char) : Bool :=
  c.isAlphanum || decide (c = '-') || decide (c = '.')

/-- The result of `populate`: it takes the reverse-zone path or the normal
path, which build different record shapes. -/
inductive PopResult where
  | normal (recs : List MatRecord)
  | reverse (ptrs : List PTRRec)
  deriving DecidableEq, Repr

/-- `populate`: route on `zone.name.endswith('in-addr.arpa.')`. -/
def populate (zoneName : String) (defaultTtl : Int) (rawLines : List String) :
    Except PyErr PopResult :=
  if List.isSuffixOf ("in-addr.arpa.").data zoneName.data then
    Except.map PopResult.reverse (populate_in_addr_arpa zoneName defaultTtl rawLines)
  else
    Except.map PopResult.normal (populate_normal zoneName defaultTtl rawLines)

/-! ### Helper lemmas -/

theorem bind_ok_left {α β : Type} (a : α) (f : α → Except PyErr β) :
    (Except.ok a >>= f) = f a := rfl

theorem bind_error_left {α β : Type} (e : PyErr) (f : α → Except PyErr β) :
    ((Except.error e : Except PyErr α) >>= f) = Except.error e := rfl

theorem pyIdx_ok {α : Type} {l : List α} {i : Nat} {a : α} (h : l.get? i = some a) :
    pyIdx l i = Except.ok a := by
  unfold pyIdx
  rw [h]

theorem exMap_get?_fwd {α β : Type} (g : α → Except PyErr β) :
    ∀ (xs : List α) (ys : List β), exMap g xs = Except.ok ys →
      ∀ (i : Nat) (x : α), xs.get? i = some x →
        ∃ y, g x = Except.ok y ∧ ys.get? i = some y := by
  intro xs
  induction xs with
  | nil =>
    intro ys _ i x hx
    simp at hx
  | cons a rest ih =>
    intro ys h i x hx
    simp only [exMap, bind, Except.bind] at h
    cases hga : g a with
    | error e => rw [hga] at h; exact absurd h (by simp)
    | ok b =>
      rw [hga] at h
      cases hrest : exMap g rest with
      | error e => rw [hrest] at h; exact absurd h (by simp)
      | ok bs =>
        rw [hrest] at h
        cases h
        cases i with
        | zero =>
          simp only [List.get?_cons_zero, Option.some.injEq] at hx
          exact ⟨b, by rw [← hx]; exact hga, rfl⟩
        | succ j =>
          simp only [List.get?_cons_succ] at hx
          exact ih bs hrest j x hx

theorem exMap_get?_back {α β : Type} (g : α → Except PyErr β) :
    ∀ (xs : List α) (ys : List β), exMap g xs = Except.ok ys →
      ∀ (i : Nat) (y : β), ys.get? i = some y →
        ∃ x, xs.get? i = some x ∧ g x = Except.ok y := by
  intro xs
  induction xs with
  | nil =>
    intro ys h i y hy
    simp only [exMap] at h
    cases h
    simp at hy
  | cons a rest ih =>
    intro ys h i y hy
    simp only [exMap, bind, Except.bind] at h
    cases hga : g a with
    | error e => rw [hga] at h; exact absurd h (by simp)
    | ok b =>
      rw [hga] at h
      cases hrest : exMap g rest with
      | error e => rw [hrest] at h; exact absurd h (by simp)
      | ok bs =>
        rw [hrest] at h
        cases h
        cases i with
        | zero =>
          simp only [List.get?_cons_zero, Option.some.injEq] at hy
          exact ⟨a, rfl, by rw [hy] at hga; exact hga⟩
        | succ j =>
          simp only [List.get?_cons_succ] at hy
          obtain ⟨x, hx, hgx⟩ := ih bs hrest j y hy
          exact ⟨x, hx, hgx⟩

/-! ### Claim theorems -/

/-- Claim C1.  The claim says a materialized record's TTL comes from the
first group line with a parseable TTL field, so the group
`+www.example.com:1.2.3.4` / `+www.example.com:1.2.3.5:300` should get TTL
300 and the single line `+www.example.com:1.2.3.4:500` should get TTL 500.
The code materializes the configured default 3600 in both cases: the `ttls`
side table is never written to, and the handlers' own scan (which reads only
`lines[0]` and is discarded) cannot change that. -/
theorem c1_ttl_always_default :
    populate_normal "example.com." 3600
        ["+www.example.com:1.2.3.4", "+www.example.com:1.2.3.5:300"]
      = Except.ok [⟨"A", "www", 3600, .multi [.s "1.2.3.4", .s "1.2.3.5"]⟩] ∧
    populate_normal "example.com." 3600 ["+www.example.com:1.2.3.4:500"]
      = Except.ok [⟨"A", "www", 3600, .single (.s "1.2.3.4")⟩] ∧
    (3600 : Int) ≠ 300 ∧ (3600 : Int) ≠ 500 := by
  refine ⟨by decide, by decide, by decide, by decide⟩

/-- Claim C2.  In zone `2.0.192.in-addr.arpa.`, the line
`=host.example.com:192.0.2.5` makes `populate` raise `AttributeError` on
the undefined `self.split_re` instead of producing any PTR record; the
spec-modelled Reverse-Zone Path produces exactly the PTR record the claim
describes, owner name `5` and value `host.example.com.`. -/
theorem c2_reverse_ptr_claim_vs_code :
    populate "2.0.192.in-addr.arpa." 3600 ["=host.example.com:192.0.2.5"]
      = Except.error .attributeError ∧
    populate_in_addr_arpa_spec "2.0.192.in-addr.arpa." [] ["=host.example.com:192.0.2.5"]
      = Except.ok [⟨"5", "host.example.com.", none⟩] := by
  exact ⟨by decide, by decide⟩

/-- Claim C3, counterexample.  Invoking the `^` handler through the general
dispatch path — `_process_symbols` calls every handler with `in_addr` left
`False` — on a forward-zone group does not raise the "not implemented"
signal: it yields no events and the pipeline returns zero records. -/
theorem c3_caret_dispatch_counterexample :
    populate_from_symbols 3600 "example.com."
        [('^', [("foo", [["foo.example.com", "1.2.3.4", "300"]])])]
      = Except.ok [] ∧
    records_for_caret 3600 "example.com." "foo" [["foo.example.com", "1.2.3.4", "300"]] false
      ≠ Except.error .notImplementedError := by
  exact ⟨by decide, by decide⟩

/-- Claim C3, amended.  The `^` handler is a normal skip on the general
dispatch path (`in_addr = False`): it returns no events for every line
group, and a `^` symbol group contributes no records; the "not implemented"
signal is raised only when the handler is invoked with the reverse-zone
flag `in_addr = True`, which the dispatcher never does. -/
theorem c3_caret_skip_amended (d : Int) (zn n : String) (lines : List (List String))
    (names : List (String × List Line)) :
    records_for_caret d zn n lines false = Except.ok [] ∧
    records_for_caret d zn n lines true = Except.error .notImplementedError ∧
    populate_from_symbols d zn [('^', names)] = Except.ok [] := by
  refine ⟨rfl, rfl, ?_⟩
  have hrun : ∀ (ns : List (String × List Line)) (ts : TypeGroups),
      runNames d zn records_for_caret ns ts = Except.ok ts := by
    intro ns
    induction ns with
    | nil => intro ts; rfl
    | cons p rest ih =>
      intro ts
      obtain ⟨nm, lns⟩ := p
      simp only [runNames, records_for_caret, bind, Except.bind, applyEvents]
      exact ih ts
  simp only [populate_from_symbols, process_symbols, dispatch, bind, Except.bind]
  rw [hrun names []]
  rfl

theorem plus_all_placeholder_aux :
    ∀ (lines : List (List String)), (∀ l ∈ lines, l.get? 1 = some "0.0.0.0") →
      ∃ raw, exMap (fun l => pyIdx l 1) lines = Except.ok raw ∧
        raw.filter (fun ip => ip != "0.0.0.0") = [] := by
  intro lines
  induction lines with
  | nil => exact fun _ => ⟨[], rfl, rfl⟩
  | cons l rest ih =>
    intro h
    obtain ⟨raw, h1, h2⟩ := ih (fun x hx => h x (List.mem_cons_of_mem l hx))
    have hl : l.get? 1 = some "0.0.0.0" := h l (List.mem_cons_self l rest)
    refine ⟨"0.0.0.0" :: raw, ?_, ?_⟩
    · simp only [exMap, pyIdx_ok hl, bind_ok_left, h1]
    · simp [List.filter, h2]

/-- Claim C4.  For every `+` line group dispatched for a forward zone:
no produced event carries the `0.0.0.0` placeholder among its values, and a
group in which every line's address field is `0.0.0.0` produces no event at
all. -/
theorem c4_plus_drops_placeholder (d : Int) (zn n : String) (lines : List (List String))
    (evs : List Event) :
    (records_for_plus d zn n lines false = Except.ok evs →
      ∀ ev ∈ evs, RValue.s "0.0.0.0" ∉ ev.values) ∧
    ((∀ l ∈ lines, l.get? 1 = some "0.0.0.0") →
      records_for_plus d zn n lines false = Except.ok []) := by
  constructor
  · intro h ev hev
    simp only [records_for_plus, Bool.false_eq_true, if_false] at h
    cases hmr : exMap (fun l => pyIdx l 1) lines with
    | error e =>
      rw [hmr, bind_error_left] at h
      exact Except.noConfusion h
    | ok raw =>
      rw [hmr, bind_ok_left] at h
      by_cases hemp : (raw.filter (fun ip => ip != "0.0.0.0")).isEmpty
      · rw [if_pos hemp] at h
        injection h with h'
        subst h'
        simp at hev
      · rw [if_neg hemp] at h
        cases hts : scanTtl d 2 lines with
        | error e =>
          rw [hts, bind_error_left] at h
          exact Except.noConfusion h
        | ok t =>
          rw [hts, bind_ok_left] at h
          injection h with h'
          subst h'
          simp only [List.mem_singleton] at hev
          subst hev
          intro hmem
          simp only [List.mem_map] at hmem
          obtain ⟨ip, hip, hips⟩ := hmem
          have hmf := List.mem_filter.mp hip
          injection hips with hips'
          rw [hips'] at hmf
          simp at hmf
  · intro h
    obtain ⟨raw, h1, h2⟩ := plus_all_placeholder_aux lines h
    simp only [records_for_plus, Bool.false_eq_true, if_false, h1, bind_ok_left, h2,
      List.isEmpty_nil, if_true]

/-- Claim C4, witness: a mixed group keeps only the real address; an
all-placeholder group produces nothing. -/
theorem c4_witness :
    RValue.s "0.0.0.0" ∉ (⟨"A", "h", [RValue.s "1.2.3.4"]⟩ : Event).values ∧
    records_for_plus 3600 "example.com." "h" [["h", "0.0.0.0"]] false = Except.ok [] := by
  constructor
  · exact (c4_plus_drops_placeholder 3600 "example.com." "h"
      [["h", "0.0.0.0"], ["h", "1.2.3.4"]] [⟨"A", "h", [RValue.s "1.2.3.4"]⟩]).1
      (by decide) ⟨"A", "h", [RValue.s "1.2.3.4"]⟩ (by simp)
  · exact (c4_plus_drops_placeholder 3600 "example.com." "h" [["h", "0.0.0.0"]] []).2
      (by decide)

/-- Claim C5.  Two `+` lines for one owner name with distinct
non-placeholder addresses produce, through dispatch and materialization,
exactly one A record whose values are both addresses in file order,
concatenated without deduplication. -/
theorem c5_plus_merge (d : Int) (zn owner f1 f2 a b : String)
    (ha : a ≠ "0.0.0.0") (hb : b ≠ "0.0.0.0") (_hab : a ≠ b) :
    populate_from_symbols d zn [('+', [(owner, [[f1, a], [f2, b]])])]
      = Except.ok [⟨"A", owner, d, .multi [.s a, .s b]⟩] := by
  have ha' : (a != "0.0.0.0") = true := bne_iff_ne.mpr ha
  have hb' : (b != "0.0.0.0") = true := bne_iff_ne.mpr hb
  simp only [populate_from_symbols, process_symbols, dispatch, runNames, records_for_plus,
    exMap, pyIdx, scanTtl, bind, Except.bind, List.get?_cons_succ, List.get?_cons_zero,
    List.get?_nil, List.filter, ha', hb', applyEvents, typesExtend, materialize,
    materializeName, List.length_cons, List.isEmpty]
  rfl

/-- Claim C5, witness: the concrete group `1.2.3.4` / `1.2.3.5` for owner
`www`. -/
theorem c5_witness :
    populate_from_symbols 3600 "example.com."
        [('+', [("www", [["www.example.com", "1.2.3.4"], ["www.example.com", "1.2.3.5"]])])]
      = Except.ok [⟨"A", "www", 3600, .multi [.s "1.2.3.4", .s "1.2.3.5"]⟩] :=
  c5_plus_merge 3600 "example.com." "www" "www.example.com" "www.example.com"
    "1.2.3.4" "1.2.3.5" (by decide) (by decide) (by decide)

theorem dotLoop_vals (zn : String) :
    ∀ (lines : List (List String)) (evs : List Event) (vals : List RValue),
      dotLoop zn lines = Except.ok (evs, vals) →
      ∀ (i : Nat) (l : List String) (f : String),
        lines.get? i = some l → l.get? 2 = some f →
        vals.get? i = some (.s (hostExpand zn f)) := by
  intro lines
  induction lines with
  | nil =>
    intro evs vals _ i l f hi _
    simp at hi
  | cons l0 rest ih =>
    intro evs vals h i l f hi hf
    simp only [dotLoop] at h
    cases h2 : pyIdx l0 2 with
    | error e => rw [h2, bind_error_left] at h; exact Except.noConfusion h
    | ok ns0 =>
      rw [h2, bind_ok_left] at h
      cases h1 : pyIdx l0 1 with
      | error e => rw [h1, bind_error_left] at h; exact Except.noConfusion h
      | ok ip =>
        rw [h1, bind_ok_left] at h
        cases hrest : dotLoop zn rest with
        | error e => rw [hrest, bind_error_left] at h; exact Except.noConfusion h
        | ok p =>
          obtain ⟨evs', vals'⟩ := p
          rw [hrest, bind_ok_left] at h
          injection h with h'
          rw [Prod.mk.injEq] at h'
          obtain ⟨_, hvals⟩ := h'
          subst hvals
          cases i with
          | zero =>
            simp only [List.get?_cons_zero, Option.some.injEq] at hi
            subst hi
            rw [pyIdx_ok hf] at h2
            injection h2 with h2'
            rw [h2']
            rfl
          | succ j =>
            simp only [List.get?_cons_succ] at hi
            exact ih evs' vals' hrest j l f hi hf

theorem atLoop_vals (zn : String) :
    ∀ (lines : List (List String)) (evs : List Event) (vals : List RValue),
      atLoop zn lines = Except.ok (evs, vals) →
      ∀ (i : Nat) (l : List String) (f : String),
        lines.get? i = some l → l.get? 2 = some f →
        ((vals.get? i).bind mxExchange) = some (hostExpand zn f) := by
  intro lines
  induction lines with
  | nil =>
    intro evs vals _ i l f hi _
    simp at hi
  | cons l0 rest ih =>
    intro evs vals h i l f hi hf
    simp only [atLoop] at h
    cases h2 : pyIdx l0 2 with
    | error e => rw [h2, bind_error_left] at h; exact Except.noConfusion h
    | ok mx0 =>
      rw [h2, bind_ok_left] at h
      cases h1 : pyIdx l0 1 with
      | error e => rw [h1, bind_error_left] at h; exact Except.noConfusion h
      | ok ip =>
        rw [h1, bind_ok_left] at h
        cases hrest : atLoop zn rest with
        | error e => rw [hrest, bind_error_left] at h; exact Except.noConfusion h
        | ok p =>
          obtain ⟨evs', vals'⟩ := p
          rw [hrest, bind_ok_left] at h
          injection h with h'
          rw [Prod.mk.injEq] at h'
          obtain ⟨_, hvals⟩ := h'
          subst hvals
          cases i with
          | zero =>
            simp only [List.get?_cons_zero, Option.some.injEq] at hi
            subst hi
            rw [pyIdx_ok hf] at h2
            injection h2 with h2'
            rw [h2']
            rfl
          | succ j =>
            simp only [List.get?_cons_succ] at hi
            exact ih evs' vals' hrest j l f hi hf

/-- Claim C6.  The NS/MX hostname synthesis: a field with no dot expands to
exactly `<field>.ns.<zone-fqdn>`; a field with a dot but no trailing dot
gets exactly one trailing dot appended; a field already ending in a dot is
unchanged — and the NS values produced by `.` (and its alias `&`) and the
MX exchanges produced by `@` are exactly these expansions of each line's
field 2, in file order. -/
theorem c6_ns_mx_target (d : Int) (zn n host : String) (lines : List (List String))
    (evs evs2 : List Event) :
    (¬host.data.contains '.' = true → hostExpand zn host = host ++ ".ns." ++ zn) ∧
    (host.data.contains '.' = true → host.data.getLast? ≠ some '.' →
      hostExpand zn host = host ++ ".") ∧
    (host.data.contains '.' = true → host.data.getLast? = some '.' →
      hostExpand zn host = host) ∧
    (records_for_dot d zn n lines false = Except.ok evs →
      lastType evs = some "NS" ∧ lastName evs = some n ∧
      ∀ (i : Nat) (l : List String) (f : String),
        lines.get? i = some l → l.get? 2 = some f →
        (lastValues evs).get? i = some (.s (hostExpand zn f))) ∧
    (records_for_at d zn n lines false = Except.ok evs2 →
      lastType evs2 = some "MX" ∧ lastName evs2 = some n ∧
      ∀ (i : Nat) (l : List String) (f : String),
        lines.get? i = some l → l.get? 2 = some f →
        (((lastValues evs2).get? i).bind mxExchange) = some (hostExpand zn f)) ∧
    records_for_amp = records_for_dot := by
  refine ⟨?_, ?_, ?_, ?_, ?_, rfl⟩
  · intro hnc
    rw [hostExpand, if_pos hnc]
  · intro hc hne
    rw [hostExpand, if_neg (not_not_intro hc), if_pos hne]
  · intro hc heq
    rw [hostExpand, if_neg (not_not_intro hc), if_neg (not_not_intro heq)]
  · intro h
    simp only [records_for_dot, Bool.false_eq_true, if_false] at h
    cases hscan : scanTtl d 3 lines with
    | error e => rw [hscan, bind_error_left] at h; exact Except.noConfusion h
    | ok t =>
      rw [hscan, bind_ok_left] at h
      cases hloop : dotLoop zn lines with
      | error e => rw [hloop, bind_error_left] at h; exact Except.noConfusion h
      | ok p =>
        obtain ⟨evs', vals⟩ := p
        rw [hloop, bind_ok_left] at h
        injection h with h'
        subst h'
        refine ⟨?_, ?_, ?_⟩
        · simp [lastType, List.getLast?_concat]
        · simp [lastName, List.getLast?_concat]
        · intro i l f hi hf
          have : lastValues (evs' ++ [⟨"NS", n, vals⟩]) = vals := by
            simp [lastValues, List.getLast?_concat]
          rw [this]
          exact dotLoop_vals zn lines evs' vals hloop i l f hi hf
  · intro h
    simp only [records_for_at, Bool.false_eq_true, if_false] at h
    cases hscan : scanTtl d 4 lines with
    | error e => rw [hscan, bind_error_left] at h; exact Except.noConfusion h
    | ok t =>
      rw [hscan, bind_ok_left] at h
      cases hloop : atLoop zn lines with
      | error e => rw [hloop, bind_error_left] at h; exact Except.noConfusion h
      | ok p =>
        obtain ⟨evs', vals⟩ := p
        rw [hloop, bind_ok_left] at h
        injection h with h'
        subst h'
        refine ⟨?_, ?_, ?_⟩
        · simp [lastType, List.getLast?_concat]
        · simp [lastName, List.getLast?_concat]
        · intro i l f hi hf
          have : lastValues (evs' ++ [⟨"MX", n, vals⟩]) = vals := by
            simp [lastValues, List.getLast?_concat]
          rw [this]
          exact atLoop_vals zn lines evs' vals hloop i l f hi hf

/-- Claim C6, witness: the three expansion cases on concrete hostnames, and
concrete `.` and `@` groups whose NS value and MX exchange are the
expansions of field 2. -/
theorem c6_witness :
    hostExpand "example.com." "a" = "a.ns.example.com." ∧
    hostExpand "example.com." "mail.other.com" = "mail.other.com." ∧
    hostExpand "example.com." "ns1.example.com." = "ns1.example.com." ∧
    lastType [⟨"NS", "x", [.s "a.ns.example.com."]⟩] = some "NS" ∧
    (lastValues [⟨"NS", "x", [.s "a.ns.example.com."]⟩]).get? 0
      = some (.s (hostExpand "example.com." "a")) ∧
    lastType [⟨"MX", "x", [.mx none "m.ns.example.com."]⟩] = some "MX" ∧
    ((lastValues [⟨"MX", "x", [.mx none "m.ns.example.com."]⟩]).get? 0).bind mxExchange
      = some (hostExpand "example.com." "m") := by
  have h4 := (c6_ns_mx_target 3600 "example.com." "x" "a" [["x.example.com", "", "a"]]
    [⟨"NS", "x", [.s "a.ns.example.com."]⟩] [⟨"MX", "x", [.mx none "m.ns.example.com."]⟩]).2.2.2.1
    (by decide)
  have h5 := (c6_ns_mx_target 3600 "example.com." "x" "a" [["x.example.com", "", "m", ""]]
    [⟨"NS", "x", [.s "a.ns.example.com."]⟩] [⟨"MX", "x", [.mx none "m.ns.example.com."]⟩]).2.2.2.2.1
    (by decide)
  refine ⟨?_, ?_, ?_, h4.1, ?_, h5.1, ?_⟩
  · exact ((c6_ns_mx_target 3600 "example.com." "x" "a" [] [] []).1 (by decide)).trans (by decide)
  · exact ((c6_ns_mx_target 3600 "example.com." "x" "mail.other.com" [] [] []).2.1
      (by decide) (by decide)).trans (by decide)
  · exact (c6_ns_mx_target 3600 "example.com." "x" "ns1.example.com." [] [] []).2.2.1
      (by decide) (by decide)
  · exact h4.2.2 0 ["x.example.com", "", "a"] "a" (by decide) (by decide)
  · exact h5.2.2 0 ["x.example.com", "", "m", ""] "m" (by decide) (by decide)

theorem caret_false_skip (d : Int) (zn n : String) (lines : List (List String)) :
    records_for_caret d zn n lines false = Except.ok [] := rfl

/-- Claim C7.  Every `3` line's field 1 is reformatted by inserting a colon
after every 4th character, with no `::` compression; the input
`20010db8000000000000000000000001` yields exactly
`2001:0db8:0000:0000:0000:0000:0000:0001`; and for forward zones the `6`
handler produces exactly what the `3` handler produces. -/
theorem c7_aaaa_format (d : Int) (zn n : String) (lines : List (List String))
    (evs : List Event) :
    (records_for_three d zn n lines false = Except.ok evs →
      lastType evs = some "AAAA" ∧ lastName evs = some n ∧
      ∀ (i : Nat) (l : List String) (f : String),
        lines.get? i = some l → l.get? 1 = some f →
        (lastValues evs).get? i = some (.s (ipv6Format f))) ∧
    ipv6Format "20010db8000000000000000000000001"
      = "2001:0db8:0000:0000:0000:0000:0000:0001" ∧
    records_for_six d zn n lines false = records_for_three d zn n lines false := by
  refine ⟨?_, by decide, ?_⟩
  · intro h
    simp only [records_for_three, Bool.false_eq_true, if_false] at h
    cases hmr : exMap (fun l => do
        let f ← pyIdx l 1
        Except.ok (ipv6Format f)) lines with
    | error e => rw [hmr, bind_error_left] at h; exact Except.noConfusion h
    | ok ips =>
      rw [hmr, bind_ok_left] at h
      cases hscan : scanTtl d 2 lines with
      | error e => rw [hscan, bind_error_left] at h; exact Except.noConfusion h
      | ok t =>
        rw [hscan, bind_ok_left] at h
        injection h with h'
        subst h'
        refine ⟨rfl, rfl, ?_⟩
        intro i l f hi hf
        obtain ⟨y, hy, hips⟩ := exMap_get?_fwd _ lines ips hmr i l hi
        have hyv : y = ipv6Format f := by
          rw [pyIdx_ok hf, bind_ok_left] at hy
          injection hy with hy'
          exact hy'.symm
        subst hyv
        have : lastValues [(⟨"AAAA", n, ips.map RValue.s⟩ : Event)] = ips.map RValue.s := rfl
        rw [this, List.get?_map, hips]
        rfl
  · cases h3 : records_for_three d zn n lines false with
    | error e =>
      simp only [records_for_six]
      rw [h3, bind_error_left]
    | ok a =>
      simp only [records_for_six]
      rw [h3, bind_ok_left, caret_false_skip, bind_ok_left, List.append_nil]

/-- Claim C7, witness: the concrete 32-hex-digit address from the spec, run
through the `3` handler. -/
theorem c7_witness :
    lastType [⟨"AAAA", "x", [.s "2001:0db8:0000:0000:0000:0000:0000:0001"]⟩]
      = some "AAAA" ∧
    (lastValues [⟨"AAAA", "x", [.s "2001:0db8:0000:0000:0000:0000:0000:0001"]⟩]).get? 0
      = some (.s (ipv6Format "20010db8000000000000000000000001")) ∧
    records_for_six 3600 "example.com." "x" [["x", "20010db8000000000000000000000001"]] false
      = records_for_three 3600 "example.com." "x"
          [["x", "20010db8000000000000000000000001"]] false := by
  have h := (c7_aaaa_format 3600 "example.com." "x"
    [["x", "20010db8000000000000000000000001"]]
    [⟨"AAAA", "x", [.s "2001:0db8:0000:0000:0000:0000:0000:0001"]⟩]).1 (by decide)
  exact ⟨h.1, h.2.2 0 ["x", "20010db8000000000000000000000001"]
    "20010db8000000000000000000000001" (by decide) (by decide),
    (c7_aaaa_format 3600 "example.com." "x" [["x", "20010db8000000000000000000000001"]]
      []).2.2⟩

theorem hasBareSemiAux_semiReplace : ∀ (l : List Char) (prev : Char),
    hasBareSemiAux prev (semiReplace l) = false := by
  intro l
  induction l with
  | nil => intro prev; rfl
  | cons c rest ih =>
    intro prev
    by_cases hc : c = ';'
    · subst hc
      simp only [semiReplace, if_pos rfl, List.cons_append, List.nil_append, hasBareSemiAux]
      simp [ih]
    · simp only [semiReplace, if_neg hc, List.cons_append, List.nil_append, hasBareSemiAux]
      simp [hc, ih]

theorem quoteDecodeVal_noBare (v t : String) (h : quoteDecodeVal v = Except.ok t) :
    hasBareSemi t.data = false := by
  simp only [quoteDecodeVal] at h
  cases h1 : latin1Ok v.data with
  | error e => rw [h1, bind_error_left] at h; exact Except.noConfusion h
  | ok u0 =>
    rw [h1, bind_ok_left] at h
    cases h2 : unicodeUnescape v.data with
    | error e => rw [h2, bind_error_left] at h; exact Except.noConfusion h
    | ok u =>
      rw [h2, bind_ok_left] at h
      injection h with h'
      rw [← h']
      exact hasBareSemiAux_semiReplace u ' '

/-- Claim C8.  Every TXT value produced by the `'` handler has been decoded
from its backslash-escaped encoding and had each literal semicolon
re-escaped as `\;`: the produced value never contains a bare semicolon
(one not immediately preceded by a backslash).  Concretely, the escaped
semicolon `\073` decodes to `\;`, never a bare `;`. -/
theorem c8_txt_semicolon_escaped (d : Int) (zn n : String) (lines : List (List String))
    (evs : List Event) :
    (records_for_quote d zn n lines false = Except.ok evs →
      ∀ (i : Nat) (v : String), (lastValues evs).get? i = some (.s v) →
        hasBareSemi v.data = false) ∧
    quoteDecodeVal "a\\073b" = Except.ok "a\\;b" := by
  refine ⟨?_, by decide⟩
  intro h i v hv
  simp only [records_for_quote, Bool.false_eq_true, if_false] at h
  cases hmr : exMap (fun l => do
      let f ← pyIdx l 1
      quoteDecodeVal f) lines with
  | error e => rw [hmr, bind_error_left] at h; exact Except.noConfusion h
  | ok vals =>
    rw [hmr, bind_ok_left] at h
    cases hscan : scanTtl d 2 lines with
    | error e => rw [hscan, bind_error_left] at h; exact Except.noConfusion h
    | ok t =>
      rw [hscan, bind_ok_left] at h
      injection h with h'
      subst h'
      have hlv : lastValues [(⟨"TXT", n, vals.map RValue.s⟩ : Event)] = vals.map RValue.s := rfl
      rw [hlv, List.get?_map] at hv
      cases hw : vals.get? i with
      | none => rw [hw] at hv; exact Option.noConfusion hv
      | some w =>
        rw [hw] at hv
        injection hv with hv'
        injection hv' with hv''
        subst hv''
        obtain ⟨l, _, hgl⟩ := exMap_get?_back _ lines vals hmr i w hw
        cases hpf : pyIdx l 1 with
        | error e => rw [hpf, bind_error_left] at hgl; exact Except.noConfusion hgl
        | ok f =>
          rw [hpf, bind_ok_left] at hgl
          exact quoteDecodeVal_noBare f w hgl

/-- Claim C8, witness: the concrete TXT group `hi\073there` decodes to
`hi\;there`, which has no bare semicolon. -/
theorem c8_witness :
    hasBareSemi ("hi\\;there").data = false ∧
    quoteDecodeVal "a\\073b" = Except.ok "a\\;b" := by
  have h := c8_txt_semicolon_escaped 3600 "example.com." "t" [["t", "hi\\073there"]]
    [⟨"TXT", "t", [.s "hi\\;there"]⟩]
  exact ⟨h.1 (by decide) 0 "hi\\;there" (by decide), h.2⟩

theorem in_addr_arpa_attr_error (zn : String) (d : Int) :
    ∀ (lines : List String), (∀ l ∈ lines, l ≠ "") →
      (∃ l ∈ lines, l.data.head? = some '=' ∨ l.data.head? = some '^' ∨
        l.data.head? = some '&') →
      populate_in_addr_arpa zn d lines = Except.error .attributeError := by
  intro lines
  induction lines with
  | nil =>
    intro _ hex
    obtain ⟨l, hl, _⟩ := hex
    simp at hl
  | cons raw rest ih =>
    intro hne hex
    cases hdat : raw.data with
    | nil =>
      have : raw = "" := String.ext (by rw [hdat])
      exact absurd this (hne raw (List.mem_cons_self raw rest))
    | cons c cs =>
      simp only [populate_in_addr_arpa, hdat]
      by_cases hc : c = '=' ∨ c = '^' ∨ c = '&'
      · rw [if_pos hc]
      · rw [if_neg hc]
        apply ih (fun l hl => hne l (List.mem_cons_of_mem raw hl))
        obtain ⟨l, hl, hsym⟩ := hex
        rcases List.mem_cons.mp hl with hraw | hl'
        · subst hraw
          rw [hdat] at hsym
          simp only [List.head?_cons, Option.some.injEq] at hsym
          exact absurd hsym hc
        · exact ⟨l, hl', hsym⟩

/-- Claim C10.  For every reverse zone, as soon as the line set contains a
line whose symbol is `=`, `^` or `&`, `populate` fails with the
attribute-lookup error on the undefined `self.split_re` — so the
reverse-zone path never produces a PTR record from a non-empty set of
address-bearing lines. -/
theorem c10_reverse_path_attribute_error (zn : String) (d : Int) (lines : List String)
    (hrev : List.isSuffixOf ("in-addr.arpa.").data zn.data = true)
    (hne : ∀ l ∈ lines, l ≠ "")
    (hsym : ∃ l ∈ lines, l.data.head? = some '=' ∨ l.data.head? = some '^' ∨
      l.data.head? = some '&') :
    populate zn d lines = Except.error .attributeError := by
  rw [populate, if_pos hrev, in_addr_arpa_attr_error zn d lines hne hsym]
  rfl

/-- Claim C10, witness: a reverse zone with one comment line and one `^`
line crashes with the attribute error. -/
theorem c10_witness :
    populate "2.0.192.in-addr.arpa." 3600
        ["# comment", "^5.2.0.192.in-addr.arpa:host.example.com:300"]
      = Except.error .attributeError :=
  c10_reverse_path_attribute_error "2.0.192.in-addr.arpa." 3600
    ["# comment", "^5.2.0.192.in-addr.arpa:host.example.com:300"]
    (by decide) (by decide) (by decide)

theorem reDotChar_self (p : Char) : reDotChar p p = true := by
  unfold reDotChar
  by_cases hp : p = '.'
  · rw [if_pos hp]
    subst hp
    decide
  · rw [if_neg hp]
    simp

theorem dotMatches_refl : ∀ (z : List Char), dotMatches z z = true := by
  intro z
  induction z with
  | nil => rfl
  | cons p ps ih => simp [dotMatches, reDotChar_self, ih]

theorem dotMatches_set : ∀ (z : List Char) (k : Nat), z.get? k = some '.' →
    dotMatches z (z.set k 'X') = true := by
  intro z
  induction z with
  | nil =>
    intro k hk
    simp at hk
  | cons p ps ih =>
    intro k hk
    cases k with
    | zero =>
      simp only [List.get?_cons_zero, Option.some.injEq] at hk
      subst hk
      simp only [List.set_cons_zero, dotMatches]
      rw [show reDotChar '.' 'X' = true from by decide]
      simp [dotMatches_refl]
    | succ j =>
      simp only [List.get?_cons_succ] at hk
      simp only [List.set_cons_succ, dotMatches]
      simp [reDotChar_self, ih j hk]

theorem strMk_data (s : String) : (⟨s.data⟩ : String) = s :=
  String.ext rfl

theorem pyDropLast_concat_dot (s : String) : pyDropLast (s ++ ".") = s := by
  unfold pyDropLast
  rw [String.data_append]
  rw [show ("." : String).data = ['.'] from rfl, List.dropLast_concat]

theorem zoneSafe_facts {c : Char} (h : zoneSafeChar c = true) :
    (c != '#') = true ∧ c ≠ ':' ∧ isPyWs c = false := by
  refine ⟨?_, ?_, ?_⟩
  · by_cases hc : c = '#'
    · rw [hc] at h; exact absurd h (by decide)
    · exact bne_iff_ne.mpr hc
  · intro hc
    rw [hc] at h; exact absurd h (by decide)
  · by_cases hw : isPyWs c = true
    · exfalso
      unfold isPyWs at hw
      unfold zoneSafeChar at h
      rcases (by exact_mod_cast of_decide_eq_true hw :
          c = ' ' ∨ c = '\t' ∨ c = '\n' ∨ c = '\r' ∨ c = '\x0b' ∨ c = '\x0c') with
        hc | hc | hc | hc | hc | hc <;> (rw [hc] at h; exact absurd h (by decide))
    · exact eq_false_of_ne_true hw

theorem takeWhile_no_hash : ∀ (l : List Char), (∀ c ∈ l, (c != '#') = true) →
    l.takeWhile (fun c => c != '#') = l := by
  intro l
  induction l with
  | nil => intro _; rfl
  | cons c rest ih =>
    intro h
    rw [List.takeWhile_cons, if_pos (h c (List.mem_cons_self c rest)),
      ih (fun x hx => h x (List.mem_cons_of_mem c hx))]

theorem splitOnChar_head_seg (sep : Char) :
    ∀ (l rest : List Char), (∀ c ∈ l, c ≠ sep) →
      splitOnChar sep (l ++ sep :: rest) = l :: splitOnChar sep rest := by
  intro l
  induction l with
  | nil =>
    intro rest _
    simp [splitOnChar]
  | cons c l' ih =>
    intro rest h
    have hl' := ih rest (fun x hx => h x (List.mem_cons_of_mem c hx))
    have hcne := h c (List.mem_cons_self c l')
    simp only [List.cons_append, splitOnChar, List.append_eq]
    rw [hl', if_neg hcne]

theorem dropWhile_false {p : Char → Bool} :
    ∀ (l : List Char), (∀ c ∈ l, p c = false) → l.dropWhile p = l := by
  intro l
  induction l with
  | nil => intro _; rfl
  | cons c rest _ =>
    intro h
    rw [List.dropWhile_cons, if_neg (by rw [h c (List.mem_cons_self c rest)]; simp)]

theorem pyStrip_safe (l : List Char) (h : ∀ c ∈ l, isPyWs c = false) :
    pyStrip ⟨l⟩ = (⟨l⟩ : String) := by
  unfold pyStrip
  rw [show (⟨l⟩ : String).data = l from rfl]
  rw [dropWhile_false l h,
    dropWhile_false l.reverse (fun c hc => h c (List.mem_reverse.mp hc)),
    List.reverse_reverse]

/-- Claim C9.  The zone-membership pattern interpolates the zone name
without escaping, so each `.` in it is a wildcard: for every zone name
(over DNS-name characters) with a dot at position `k` of its undotted form,
the name obtained by replacing that dot with `X` is neither the zone name
(with or without trailing dot) nor a name ending in `.<zone>`, yet the
filter of `_process_lines` accepts it, and a `+` line bearing it is grouped
and contributes records rather than being skipped. -/
theorem c9_zone_regex_dot_wildcard (znd : String) (k : Nat)
    (hsafe : znd.data.all zoneSafeChar = true)
    (hk : znd.data.get? k = some '.') :
    nameReAccepts (pyDropLast (znd ++ ".")) (⟨znd.data.set k 'X'⟩ : String) = true ∧
    (⟨znd.data.set k 'X'⟩ : String) ≠ znd ∧
    (⟨znd.data.set k 'X'⟩ : String) ≠ znd ++ "." ∧
    ¬List.IsSuffix ('.' :: znd.data) (znd.data.set k 'X') ∧
    ¬List.IsSuffix ('.' :: (znd ++ ".").data) (znd.data.set k 'X') ∧
    process_lines (znd ++ ".")
        [⟨'+' :: (znd.data.set k 'X' ++ (":1.2.3.4").data)⟩] []
      = Except.ok [('+', [((⟨znd.data.set k 'X'⟩ : String),
          [[(⟨znd.data.set k 'X'⟩ : String), "1.2.3.4"]])])] := by
  have hklt : k < znd.data.length := by
    rcases List.get?_eq_some.mp hk with ⟨hl, _⟩
    exact hl
  have hlen : (znd.data.set k 'X').length = znd.data.length := List.length_set znd.data k 'X'
  have hosafe : ∀ c ∈ znd.data.set k 'X', zoneSafeChar c = true := by
    intro c hc
    rcases List.mem_or_eq_of_mem_set hc with hmem | hX
    · exact List.all_eq_true.mp hsafe c hmem
    · rw [hX]; decide
  have hacc : nameReAccepts znd (⟨znd.data.set k 'X'⟩ : String) = true := by
    have hdm := dotMatches_set znd.data k hk
    simp [nameReAccepts, coreOk, hdm]
  have hneq1 : (⟨znd.data.set k 'X'⟩ : String) ≠ znd := by
    intro h
    have hd : znd.data.set k 'X' = znd.data := congrArg String.data h
    have hset : (znd.data.set k 'X').get? k = some 'X' := List.get?_set_eq_of_lt 'X' hklt
    rw [hd, hk] at hset
    injection hset with hset'
    exact absurd hset' (by decide)
  have hneq2 : (⟨znd.data.set k 'X'⟩ : String) ≠ znd ++ "." := by
    intro h
    have := congrArg (fun t => t.data.length) h
    simp only [String.data_append, List.length_append, List.length_set] at this
    simp at this
  have hsuf1 : ¬List.IsSuffix ('.' :: znd.data) (znd.data.set k 'X') := by
    intro h
    have := h.length_le
    rw [hlen] at this
    simp at this
  have hsuf2 : ¬List.IsSuffix ('.' :: (znd ++ ".").data) (znd.data.set k 'X') := by
    intro h
    have := h.length_le
    rw [hlen] at this
    simp [String.data_append] at this
    omega
  have hh : hostname_from_fqdn (znd ++ ".") (⟨znd.data.set k 'X'⟩ : String)
      = (⟨znd.data.set k 'X'⟩ : String) := by
    unfold hostname_from_fqdn
    rw [if_neg hneq2]
    rw [if_neg (show ¬List.isSuffixOf ("." ++ (znd ++ ".")).data
        (⟨znd.data.set k 'X'⟩ : String).data = true from by
      intro hb
      have := (List.isSuffixOf_iff_suffix.mp hb).length_le
      rw [show (⟨znd.data.set k 'X'⟩ : String).data = znd.data.set k 'X' from rfl,
        hlen] at this
      simp [String.data_append] at this
      omega)]
    rw [pyDropLast_concat_dot]
    rw [if_neg hneq1]
    rw [if_neg (show ¬List.isSuffixOf ("." ++ znd).data
        (⟨znd.data.set k 'X'⟩ : String).data = true from by
      intro hb
      have := (List.isSuffixOf_iff_suffix.mp hb).length_le
      rw [show (⟨znd.data.set k 'X'⟩ : String).data = znd.data.set k 'X' from rfl,
        hlen] at this
      simp [String.data_append] at this)]
  have htok : tokenizeFields (znd.data.set k 'X' ++ (":1.2.3.4").data)
      = [(⟨znd.data.set k 'X'⟩ : String), "1.2.3.4"] := by
    unfold tokenizeFields
    rw [show znd.data.set k 'X' ++ (":1.2.3.4").data
      = znd.data.set k 'X' ++ ':' :: ("1.2.3.4").data from rfl]
    have hconc : ∀ c ∈ (':' :: ("1.2.3.4").data), (c != '#') = true := by decide
    rw [takeWhile_no_hash _ (by
      intro c hc
      rcases List.mem_append.mp hc with hmem | hmem
      · exact (zoneSafe_facts (hosafe c hmem)).1
      · exact hconc c hmem)]
    rw [splitOnChar_head_seg ':' _ _ (fun c hc => (zoneSafe_facts (hosafe c hc)).2.1)]
    rw [show splitOnChar ':' ("1.2.3.4").data = [("1.2.3.4").data] from by decide]
    simp only [List.map_cons, List.map_nil]
    rw [pyStrip_safe _ (fun c hc => (zoneSafe_facts (hosafe c hc)).2.2)]
    rw [show pyStrip ⟨("1.2.3.4").data⟩ = "1.2.3.4" from by decide]
  refine ⟨by rw [pyDropLast_concat_dot]; exact hacc, hneq1, hneq2, hsuf1, hsuf2, ?_⟩
  simp only [process_lines, htok]
  rw [pyDropLast_concat_dot]
  rw [if_pos hacc, hh]
  rfl

/-- Claim C9, witness: zone `example.com.` — replacing the interior dot
gives `exampleXcom`, which the filter accepts and groups, though it is not
`example.com`, not `example.com.`, and ends in neither. -/
theorem c9_witness :
    nameReAccepts (pyDropLast ("example.com" ++ "."))
        (⟨("example.com").data.set 7 'X'⟩ : String) = true ∧
    (⟨("example.com").data.set 7 'X'⟩ : String) = "exampleXcom" ∧
    (⟨("example.com").data.set 7 'X'⟩ : String) ≠ "example.com" ∧
    (⟨("example.com").data.set 7 'X'⟩ : String) ≠ "example.com" ++ "." ∧
    process_lines ("example.com" ++ ".")
        [⟨'+' :: (("example.com").data.set 7 'X' ++ (":1.2.3.4").data)⟩] []
      = Except.ok [('+', [((⟨("example.com").data.set 7 'X'⟩ : String),
          [[(⟨("example.com").data.set 7 'X'⟩ : String), "1.2.3.4"]])])] := by
  have h := c9_zone_regex_dot_wildcard "example.com" 7 (by decide) (by decide)
  exact ⟨h.1, by decide, h.2.1, h.2.2.1, h.2.2.2.2.2⟩

end TinyDns
